import Mathlib

/-!
Verification of the chunking / dispatch / merge pipeline of the
video-to-pdf-transcript repository.

Shallow embedding notes:
* JavaScript strings are modelled as Lean String; the code-unit operations
  substring and toLowerCase are modelled character-wise (the repository only
  manipulates ASCII timestamps and plain text here).
* JavaScript numbers holding byte sizes and second counts are modelled as
  natural numbers; the two places where a fractional division feeds a
  comparison (shouldChunkVideo) or a ceiling (splitVideoIntoChunks) are
  modelled with exact rational arithmetic.
* Thrown exceptions are modelled with Except String; the remote Gemini call
  is an opaque parameter (an InferenceEnv) since it is an external
  collaborator.
-/

/-- src/types.ts: TranscriptSegment. -/
structure TranscriptSegment where
  timestamp : String
  speaker : String
  text : String
  tone : String
  intent : String
deriving DecidableEq, Repr

/-- src/types.ts: VideoMetadata. -/
structure VideoMetadata where
  title : String
  speakerName : String
  category : String
  language : String
  tags : List String
  summary : String
deriving DecidableEq, Repr

/-- src/types.ts: TrainingData. -/
structure TrainingData where
  metadata : VideoMetadata
  transcript : List TranscriptSegment
deriving DecidableEq, Repr

/-- The caller-supplied metadata context of the processing entry points. -/
structure UserMetadata where
  title : String
  speakerName : String
  category : String
deriving DecidableEq, Repr

/-- src/utils/videoChunker.ts: VideoChunk (the blob reference is not needed
for the verified properties; times are in whole seconds). -/
structure VideoChunk where
  startTime : Nat
  endTime : Nat
  index : Nat
  duration : Nat
deriving DecidableEq, Repr

/-- The observable attributes of the input File: its byte size and, when the
browser can read the metadata, its duration in seconds (none models the
getVideoDuration rejection). -/
structure MediaFile where
  sizeBytes : Nat
  durationSecs : Option Nat
deriving DecidableEq

/-- Outcomes of the opaque remote inference calls: one for the single-call
(non-chunked) path and one per chunk index for the dispatch loop. -/
structure InferenceEnv where
  full : Except String TrainingData
  perChunk : Nat → Except String TrainingData

/-- JavaScript String(n).padStart(2, szero): left-pad with the zero character
to length at least 2. -/
def padStart2 (s : String) : String :=
  if s.length < 2 then String.mk (List.replicate (2 - s.length) '0' ++ s.data) else s

/-- JavaScript str.split(sep) for a single-character separator, implemented
character-wise (matches String.splitOn but is kernel-computable). -/
def splitOnChar (c : Char) : List Char → List (List Char)
  | [] => [[]]
  | a :: rest =>
    let r := splitOnChar c rest
    if a = c then [] :: r
    else
      match r with
      | [] => [[a]]
      | h :: t => (a :: h) :: t

/-- JavaScript Number(str) restricted to plain digit strings: the only shape
the pipeline feeds it.  Non-digit input yields none (the JavaScript NaN
paths for malformed fields are outside this Nat model). -/
def toNatChars (l : List Char) : Option Nat :=
  if l.isEmpty then none
  else if l.all (fun c => c.isDigit) then
    some (l.foldl (fun acc c => acc * 10 + (c.toNat - 48)) 0)
  else none

/-- The parsing half of adjustTimestamp (transcriptMerger.ts line 59):
timestamp.split(colon).map(Number) destructured into minutes and seconds. -/
def parseMMSS (timestamp : String) : Nat × Nat :=
  let parts := splitOnChar ':' timestamp.data
  (((parts[0]?).bind toNatChars).getD 0, ((parts[1]?).bind toNatChars).getD 0)

/-- The formatting half of adjustTimestamp (transcriptMerger.ts lines 61-63):
newMinutes = floor(total / 60), newSeconds = floor(total mod 60), both
zero-padded to width 2. -/
def fmtMMSS (totalSeconds : Nat) : String :=
  padStart2 (Nat.repr (totalSeconds / 60)) ++ ":" ++ padStart2 (Nat.repr (totalSeconds % 60))

/-- src/utils/transcriptMerger.ts: adjustTimestamp. -/
def adjustTimestamp (timestamp : String) (offsetSeconds : Nat) : String :=
  let p := parseMMSS timestamp
  fmtMMSS (p.1 * 60 + p.2 + offsetSeconds)

/-- Insertion into a JavaScript Set modelled on insertion-ordered lists:
add the element unless already present. -/
def addDistinct (acc : List String) (x : String) : List String :=
  if acc.contains x then acc else acc ++ [x]

/-- JavaScript text.toLowerCase(), character-wise. -/
def lowerStr (s : String) : String := String.mk (s.data.map Char.toLower)

/-- JavaScript str.trim(): strip whitespace from both ends, character-wise. -/
def trimStr (s : String) : String :=
  String.mk (((s.data.dropWhile Char.isWhitespace).reverse.dropWhile Char.isWhitespace).reverse)

/-- src/utils/transcriptMerger.ts: mergeTags (lower-case everything, distinct
in first-seen order, keep at most 15). -/
def mergeTags (tagArrays : List (List String)) : List String :=
  (tagArrays.foldl (fun acc tags => tags.foldl (fun a tag => addDistinct a (lowerStr tag)) acc) []).take 15

/-- src/utils/transcriptMerger.ts: mergeSummaries (distinct summaries in
first-seen order joined with a single space). -/
def mergeSummaries (summaries : List String) : String :=
  String.intercalate " " (summaries.foldl addDistinct [])

/-- src/utils/transcriptMerger.ts: mergeLanguages (split each language string
on commas, trim, distinct tokens in first-seen order, join with comma-space). -/
def mergeLanguages (languages : List String) : String :=
  String.intercalate ", "
    (languages.foldl
      (fun acc lang =>
        ((splitOnChar ',' lang.data).map String.mk).foldl (fun a l => addDistinct a (trimStr l)) acc)
      [])

/-- The forEach loop of mergeTranscripts (transcriptMerger.ts lines 21-39):
walks the chunks, pushing every transcript entry with its timestamp adjusted
by the running cumulativeTime, and adds the chunk duration at the matching
position (when one exists) after each chunk.  Returns the merged transcript
together with the final cumulativeTime. -/
def mergeLoop : List TrainingData → List Nat → Nat → List TranscriptSegment × Nat
  | [], _, cumulativeTime => ([], cumulativeTime)
  | chunk :: restChunks, durs, cumulativeTime =>
    let adjusted := chunk.transcript.map
      (fun segment => { segment with timestamp := adjustTimestamp segment.timestamp cumulativeTime })
    let nextTime := match durs with
      | [] => cumulativeTime
      | d :: _ => cumulativeTime + d
    let remaining := mergeLoop restChunks durs.tail nextTime
    (adjusted ++ remaining.1, remaining.2)

/-- src/utils/transcriptMerger.ts: mergeTranscripts. -/
def mergeTranscripts (chunks : List TrainingData) (chunkDurations : List Nat) :
    Except String TrainingData :=
  match chunks with
  | [] => Except.error "No chunks to merge"
  | first :: restChunks =>
    let mergedTranscript := (mergeLoop (first :: restChunks) chunkDurations 0).1
    Except.ok
      { metadata :=
          { first.metadata with
            tags := mergeTags ((first :: restChunks).map (fun c => c.metadata.tags)),
            summary := mergeSummaries ((first :: restChunks).map (fun c => c.metadata.summary)),
            language := mergeLanguages ((first :: restChunks).map (fun c => c.metadata.language)) },
        transcript := mergedTranscript }

/-- JavaScript text.substring(0, n), character-wise. -/
def takeStr (s : String) (n : Nat) : String := String.mk (s.data.take n)

/-- The fingerprint of removeBoundaryDuplicates (transcriptMerger.ts
line 109): timestamp, a dash, and the lower-cased first 20 characters. -/
def segKey (s : TranscriptSegment) : String :=
  s.timestamp ++ "-" ++ lowerStr (takeStr s.text 20)

/-- The adjacent-repeat test of removeBoundaryDuplicates (lines 117-118):
same timestamp and case-insensitively identical full text. -/
def boundaryMatch (p s : TranscriptSegment) : Bool :=
  p.timestamp == s.timestamp && lowerStr p.text == lowerStr s.text

/-- The forEach pass of removeBoundaryDuplicates (lines 107-124), with the
previous original entry and the seen fingerprint set made explicit.  A new
fingerprint is recorded and its entry kept; a seen fingerprint is dropped
exactly when the previous original entry is an adjacent repeat (the
index-zero guard of line 114 corresponds to the none case of prev). -/
def rbdLoop : List TranscriptSegment → Option TranscriptSegment → List String → List TranscriptSegment
  | [], _, _ => []
  | s :: rest, prev, seen =>
    let key := segKey s
    if seen.contains key then
      match prev with
      | some p =>
        if boundaryMatch p s then rbdLoop rest (some s) seen
        else s :: rbdLoop rest (some s) seen
      | none => rbdLoop rest (some s) seen
    else
      s :: rbdLoop rest (some s) (key :: seen)

/-- src/utils/transcriptMerger.ts: removeBoundaryDuplicates. -/
def removeBoundaryDuplicates (transcript : List TranscriptSegment) : List TranscriptSegment :=
  rbdLoop transcript none []

/-- Modelled from the spec words of section 4.5 (the refinement target for
the boundary deduplicator): an entry is dropped exactly when its fingerprint
occurs among the fingerprints of ALL previous entries of the original input
AND the immediately preceding original entry has the same timestamp and
case-insensitively identical full text; every other entry is kept.  The
first argument accumulates the already processed original entries. -/
def dedupeSpecGo : List TranscriptSegment → List TranscriptSegment → List TranscriptSegment
  | _, [] => []
  | processed, s :: rest =>
    let seenBefore := (processed.map segKey).contains (segKey s)
    let adjacentRepeat := match processed.getLast? with
      | some p => p.timestamp == s.timestamp && lowerStr p.text == lowerStr s.text
      | none => false
    if seenBefore && adjacentRepeat then dedupeSpecGo (processed ++ [s]) rest
    else s :: dedupeSpecGo (processed ++ [s]) rest

/-- Modelled from the spec words of section 4.5: the declarative
boundary-deduplication pass, to be compared with removeBoundaryDuplicates. -/
def dedupeSpec (transcript : List TranscriptSegment) : List TranscriptSegment :=
  dedupeSpecGo [] transcript

/-- src/utils/videoChunker.ts: the pure segment computation of
splitVideoIntoChunks (lines 53-94), with the duration supplied as an input
(in the source it is awaited from getVideoDuration).  Math.ceil of the exact
ratio duration / chunkDurationSeconds is, over naturals, the rounding-up
division (duration + chunkDurationSeconds - 1) / chunkDurationSeconds; the
theorem natCeilDiv_eq_ceil below proves this form equal to the rational
ceiling. -/
def splitVideoIntoChunks (duration : Nat) (chunkDurationMinutes : Nat) : List VideoChunk :=
  let chunkDurationSeconds := chunkDurationMinutes * 60
  let totalChunks := (duration + chunkDurationSeconds - 1) / chunkDurationSeconds
  (List.range totalChunks).map (fun i =>
    { startTime := i * chunkDurationSeconds,
      endTime := min ((i + 1) * chunkDurationSeconds) duration,
      index := i,
      duration := min ((i + 1) * chunkDurationSeconds) duration - i * chunkDurationSeconds })

/-- src/utils/videoChunker.ts: shouldChunkVideo.  The source compares
size / (1024*1024) > maxSizeMB and duration / 60 > maxDurationMinutes with
exact division; over naturals these comparisons are the cross-multiplied
forms used here (the theorem shouldChunkVideo_spec states them back in
division form).  durationSecs models the getVideoDuration promise (none is
the rejection branch, which falls back to the fixed 50 MB comparison). -/
def shouldChunkVideo (sizeBytes : Nat) (durationSecs : Option Nat)
    (maxSizeMB : Nat) (maxDurationMinutes : Nat) : Bool :=
  if sizeBytes > maxSizeMB * (1024 * 1024) then true
  else
    match durationSecs with
    | some duration => decide (duration > maxDurationMinutes * 60)
    | none => decide (sizeBytes > 50 * (1024 * 1024))

/-- The credential guard of processVideoWithGemini (geminiService lines
10-14): the key is absent, or is the literal string undefined, or is empty. -/
def apiKeyInvalid : Option String → Bool
  | none => true
  | some k => k == "undefined" || k == ""

/-- The error message thrown by processVideoWithGemini when the credential is
missing. -/
def geminiKeyError : String :=
  "GEMINI_API_KEY is not set. Please add it to your .env.local file. Get your API key from: https://aistudio.google.com/apikey"

/-- src/services geminiService: processVideoWithGemini, with the remote
generateContent call abstracted as its outcome. -/
def processVideoWithGemini (apiKey : Option String)
    (callOutcome : Except String TrainingData) : Except String TrainingData :=
  if apiKeyInvalid apiKey then Except.error geminiKeyError else callOutcome

/-- The placeholder AnalysisResult synthesized in the catch branch of the
dispatch loop (chunked service lines 107-117); the argument is the 0-based
loop index. -/
def placeholderResult (userMetadata : UserMetadata) (i : Nat) : TrainingData :=
  { metadata :=
      { title := userMetadata.title,
        speakerName := userMetadata.speakerName,
        category := userMetadata.category,
        language := "Unknown",
        tags := [],
        summary := "Chunk " ++ toString (i + 1) ++ " processing failed" },
    transcript := [] }

/-- The dispatch loop of processVideoWithChunking (lines 71-120): for each
chunk in order, invoke the adapter (through the credential guard); on
success pair the result with the chunk duration, on failure pair the
synthesized placeholder with the same duration.  The Nat argument is the
loop index. -/
def runChunks (userMetadata : UserMetadata) (apiKey : Option String)
    (env : InferenceEnv) : Nat → List VideoChunk → List (TrainingData × Nat)
  | _, [] => []
  | i, chunk :: rest =>
    (match processVideoWithGemini apiKey (env.perChunk i) with
     | Except.ok result => (result, chunk.duration)
     | Except.error _ => (placeholderResult userMetadata i, chunk.duration)) ::
    runChunks userMetadata apiKey env (i + 1) rest

/-- src/services chunkedVideoService: processVideoWithChunking. -/
def processVideoWithChunking (file : MediaFile) (userMetadata : UserMetadata)
    (apiKey : Option String) (env : InferenceEnv)
    (chunkDurationMinutes : Nat) : Except String TrainingData :=
  let needsChunking := shouldChunkVideo file.sizeBytes file.durationSecs 100 60
  if needsChunking = false then
    processVideoWithGemini apiKey env.full
  else
    match file.durationSecs with
    | none => Except.error "Failed to load video metadata"
    | some duration =>
      let chunks := splitVideoIntoChunks duration chunkDurationMinutes
      let pairs := runChunks userMetadata apiKey env 0 chunks
      match mergeTranscripts (pairs.map Prod.fst) (pairs.map Prod.snd) with
      | Except.error e => Except.error e
      | Except.ok merged =>
        Except.ok { merged with transcript := removeBoundaryDuplicates merged.transcript }

/-- Sample transcript entry used by concrete instances. -/
def sampleEntry : TranscriptSegment :=
  { timestamp := "00:05", speaker := "Speaker", text := "Hi there", tone := "calm", intent := "inform" }

/-- Sample per-segment result: one entry at 00:05. -/
def sampleResult : TrainingData :=
  { metadata :=
      { title := "Title", speakerName := "Speaker", category := "Category",
        language := "English", tags := ["demo"], summary := "A summary" },
    transcript := [sampleEntry] }

/-- Sample caller metadata. -/
def sampleMeta : UserMetadata :=
  { title := "Title", speakerName := "Speaker", category := "Category" }

/-- An inference environment in which every remote call fails. -/
def failEnv : InferenceEnv :=
  { full := Except.error "service unavailable", perChunk := fun _ => Except.error "service unavailable" }

/-- An inference environment in which chunk 0 succeeds and all later chunks
fail. -/
def mixedEnv : InferenceEnv :=
  { full := Except.ok sampleResult,
    perChunk := fun i => if i = 0 then Except.ok sampleResult else Except.error "service unavailable" }

/-- A segment used by the dedup examples. -/
def segA : TranscriptSegment :=
  { timestamp := "00:10", speaker := "A", text := "Hello World", tone := "calm", intent := "greet" }

/-- An adjacent case-insensitive repeat of segA. -/
def segAdup : TranscriptSegment :=
  { timestamp := "00:10", speaker := "A", text := "hello world", tone := "calm", intent := "greet" }

/-- A segment sharing the timestamp of segA but with different text. -/
def segB : TranscriptSegment :=
  { timestamp := "00:10", speaker := "B", text := "Something else entirely", tone := "calm", intent := "inform" }

theorem padStart2_two_le (s : String) : 2 ≤ (padStart2 s).length := by
  unfold padStart2
  split
  · rename_i h
    show 2 ≤ (List.replicate (2 - s.length) '0' ++ s.data).length
    have hs : s.length = s.data.length := rfl
    simp only [List.length_append, List.length_replicate]
    omega
  · omega

theorem padStart2_repr_len2 : ∀ n, n < 60 → (padStart2 (Nat.repr n)).length = 2 := by decide

/-- Claim C8: mergeTranscripts fails with the empty-input error exactly on an
empty result list, and returns a result on every non-empty list. -/
theorem mergeTranscripts_empty_iff :
    (∀ durs, mergeTranscripts [] durs = Except.error "No chunks to merge") ∧
    ∀ (first : TrainingData) (restChunks : List TrainingData) (durs : List Nat),
      ∃ r, mergeTranscripts (first :: restChunks) durs = Except.ok r :=
  ⟨fun _ => rfl, fun _ _ _ => ⟨_, rfl⟩⟩

/-- Claim C7: the merged language field is the comma-space join of the
distinct trimmed comma-tokens of the per-result language strings, in
first-seen order, with case-sensitive distinctness (Spanish and spanish are
both kept). -/
theorem mergeLanguages_spec :
    (∀ (first : TrainingData) (restChunks : List TrainingData) (durs : List Nat),
      ∃ r, mergeTranscripts (first :: restChunks) durs = Except.ok r ∧
        r.metadata.language =
          mergeLanguages ((first :: restChunks).map (fun c => c.metadata.language))) ∧
    mergeLanguages ["English, Spanish", "spanish, French"] = "English, Spanish, spanish, French" ∧
    mergeLanguages ["English, Spanish", "Spanish,  French "] = "English, Spanish, French" := by
  refine ⟨fun first restChunks durs => ⟨_, rfl, rfl⟩, by decide, by decide⟩

/-- Claim C6: concrete offset adjustments, identity at offset zero on
well-formed MM:SS timestamps, and the output format invariant (minutes at
least two zero-padded digits, never hour-wrapped; seconds exactly two). -/
theorem adjustTimestamp_spec (ts : String) (m s : Nat)
    (hparse : parseMMSS ts = (m, s)) (hfmt : fmtMMSS (m * 60 + s) = ts) (hs : s < 60) :
    adjustTimestamp "05:30" 90 = "07:00" ∧
    adjustTimestamp "00:59" 61 = "02:00" ∧
    adjustTimestamp "59:30" 3600 = "119:30" ∧
    adjustTimestamp ts 0 = ts ∧
    ∀ off : Nat,
      adjustTimestamp ts off =
        padStart2 (Nat.repr ((m * 60 + s + off) / 60)) ++ ":" ++
          padStart2 (Nat.repr ((m * 60 + s + off) % 60)) ∧
      2 ≤ (padStart2 (Nat.repr ((m * 60 + s + off) / 60))).length ∧
      (padStart2 (Nat.repr ((m * 60 + s + off) % 60))).length = 2 := by
  refine ⟨by decide, by decide, by decide, ?_, ?_⟩
  · simp only [adjustTimestamp, hparse]
    simpa using hfmt
  · intro off
    refine ⟨?_, padStart2_two_le _, padStart2_repr_len2 _ (Nat.mod_lt _ (by omega))⟩
    simp only [adjustTimestamp, hparse, fmtMMSS]

/-- Witness for adjustTimestamp_spec at the concrete timestamp 05:30. -/
theorem adjustTimestamp_spec_witness :
    adjustTimestamp "05:30" 0 = "05:30" ∧ adjustTimestamp "05:30" 90 = "07:00" :=
  ⟨(adjustTimestamp_spec "05:30" 5 30 (by decide) (by decide) (by decide)).2.2.2.1,
   (adjustTimestamp_spec "05:30" 5 30 (by decide) (by decide) (by decide)).1⟩

theorem mergeLoop_length (chunks : List TrainingData) :
    ∀ (durs : List Nat) (t : Nat),
      (mergeLoop chunks durs t).1.length = (chunks.map (fun c => c.transcript.length)).sum := by
  induction chunks with
  | nil => intro durs t; rfl
  | cons c cs ih => intro durs t; simp [mergeLoop, ih]

theorem mergeLoop_eq (chunks : List TrainingData) :
    ∀ (durs : List Nat) (t : Nat), chunks.length = durs.length →
      mergeLoop chunks durs t =
        ((chunks.zip (durs.scanl (· + ·) t)).bind
          (fun p => p.1.transcript.map
            (fun seg => { seg with timestamp := adjustTimestamp seg.timestamp p.2 })),
         t + durs.sum) := by
  induction chunks with
  | nil =>
    intro durs t h
    have hd : durs = [] := by
      cases durs with
      | nil => rfl
      | cons d ds => simp at h
    subst hd
    simp [mergeLoop]
  | cons c cs ih =>
    intro durs t h
    cases durs with
    | nil => simp at h
    | cons d ds =>
      simp only [mergeLoop, List.tail_cons]
      rw [ih ds (t + d) (by simpa using h)]
      simp [List.scanl_cons, List.zip_cons_cons, List.cons_bind]
      omega

/-- Claim C1: merging N results with N durations produces a transcript that
is the in-order concatenation of the per-result transcripts, each entry
adjusted by the sum of the durations of all earlier results (the running
offsets are the partial sums of the supplied durations, starting at 0); the
merged length is the sum of the per-result lengths and the final cumulative
offset is the sum of all supplied durations. -/
theorem mergeTranscripts_offsets (first : TrainingData) (restChunks : List TrainingData)
    (durs : List Nat) (hlen : (first :: restChunks).length = durs.length) :
    ∃ r, mergeTranscripts (first :: restChunks) durs = Except.ok r ∧
      r.transcript =
        ((first :: restChunks).zip (durs.scanl (· + ·) 0)).bind
          (fun p => p.1.transcript.map
            (fun seg => { seg with timestamp := adjustTimestamp seg.timestamp p.2 })) ∧
      r.transcript.length = ((first :: restChunks).map (fun c => c.transcript.length)).sum ∧
      (mergeLoop (first :: restChunks) durs 0).2 = durs.sum := by
  refine ⟨_, rfl, ?_, ?_, ?_⟩
  · show (mergeLoop (first :: restChunks) durs 0).1 = _
    rw [mergeLoop_eq _ durs 0 hlen]
  · exact mergeLoop_length _ durs 0
  · rw [mergeLoop_eq _ durs 0 hlen]
    exact Nat.zero_add _

/-- Witness for mergeTranscripts_offsets: three one-entry results at 00:05
with durations 600, 600, 300 merge to timestamps 00:05, 10:05, 20:05. -/
theorem mergeTranscripts_offsets_witness :
    (∃ r, mergeTranscripts [sampleResult, sampleResult, sampleResult] [600, 600, 300] = Except.ok r ∧
      r.transcript =
        (([sampleResult, sampleResult, sampleResult]).zip
            (([600, 600, 300] : List Nat).scanl (· + ·) 0)).bind
          (fun p => p.1.transcript.map
            (fun seg => { seg with timestamp := adjustTimestamp seg.timestamp p.2 })) ∧
      r.transcript.length =
        (([sampleResult, sampleResult, sampleResult]).map (fun c => c.transcript.length)).sum ∧
      (mergeLoop [sampleResult, sampleResult, sampleResult] [600, 600, 300] 0).2 =
        ([600, 600, 300] : List Nat).sum) ∧
    (mergeLoop [sampleResult, sampleResult, sampleResult] [600, 600, 300] 0).1.map
        (fun seg => seg.timestamp) = ["00:05", "10:05", "20:05"] :=
  ⟨mergeTranscripts_offsets sampleResult [sampleResult, sampleResult] [600, 600, 300] rfl,
   by decide⟩

theorem strContains_iff (l : List String) (k : String) : l.contains k = true ↔ k ∈ l := by
  induction l with
  | nil => simp
  | cons a l ih => simp [List.contains_cons, ih]

theorem rbdLoop_eq_spec (rest : List TranscriptSegment) :
    ∀ (processed : List TranscriptSegment) (seen : List String),
      (∀ k : String, seen.contains k = true ↔ k ∈ processed.map segKey) →
      rbdLoop rest processed.getLast? seen = dedupeSpecGo processed rest := by
  induction rest with
  | nil => intro processed seen _; rfl
  | cons s rest ih =>
    intro processed seen hinv
    have hlast : (processed ++ [s]).getLast? = some s := List.getLast?_concat _
    have hmapapp : (processed ++ [s]).map segKey = processed.map segKey ++ [segKey s] := by
      simp
    cases hc : seen.contains (segKey s) with
    | true =>
      have hmem : segKey s ∈ processed.map segKey := (hinv _).mp hc
      have hseen : segKey s ∈ seen := (strContains_iff seen _).mp hc
      have hc2 : (processed.map segKey).contains (segKey s) = true := (strContains_iff _ _).mpr hmem
      have hinv2 : ∀ k : String, seen.contains k = true ↔ k ∈ (processed ++ [s]).map segKey := by
        intro k
        rw [hmapapp]
        constructor
        · intro h; exact List.mem_append_left _ ((hinv k).mp h)
        · intro h
          rcases List.mem_append.mp h with h1 | h1
          · exact (hinv k).mpr h1
          · have hk : k = segKey s := by simpa using h1
            rw [hk]; exact hc
      have hgo : rbdLoop rest (some s) seen = dedupeSpecGo (processed ++ [s]) rest := by
        have h := ih (processed ++ [s]) seen hinv2
        rwa [hlast] at h
      cases hl : processed.getLast? with
      | none =>
        exfalso
        rw [List.getLast?_eq_none_iff] at hl
        subst hl
        simp at hmem
      | some p =>
        cases hm : boundaryMatch p s with
        | true =>
          have hmm : (p.timestamp == s.timestamp && lowerStr p.text == lowerStr s.text) = true := hm
          simp [rbdLoop, dedupeSpecGo, hl, hc, hc2, hm, hmm, hgo, hseen, hmem]
        | false =>
          have hmm : (p.timestamp == s.timestamp && lowerStr p.text == lowerStr s.text) = false := hm
          simp [rbdLoop, dedupeSpecGo, hl, hc, hc2, hm, hmm, hgo, hseen, hmem]
    | false =>
      have hnotmem : segKey s ∉ processed.map segKey := by
        intro h
        have h2 := (hinv _).mpr h
        rw [hc] at h2
        exact Bool.noConfusion h2
      have hnotseen : segKey s ∉ seen := by
        intro h
        have h2 := (strContains_iff seen (segKey s)).mpr h
        rw [hc] at h2
        exact Bool.noConfusion h2
      have hc2 : (processed.map segKey).contains (segKey s) = false := by
        cases h2 : (processed.map segKey).contains (segKey s) with
        | false => rfl
        | true => exact absurd ((strContains_iff _ _).mp h2) hnotmem
      have hinv2 : ∀ k : String,
          (segKey s :: seen).contains k = true ↔ k ∈ (processed ++ [s]).map segKey := by
        intro k
        rw [hmapapp, List.contains_cons, Bool.or_eq_true]
        constructor
        · rintro (h1 | h1)
          · have hk : k = segKey s := by simpa using h1
            rw [hk]; exact List.mem_append_right _ (by simp)
          · exact List.mem_append_left _ ((hinv k).mp h1)
        · intro h
          rcases List.mem_append.mp h with h1 | h1
          · exact Or.inr ((hinv k).mpr h1)
          · exact Or.inl (by simpa using h1)
      have hgo : rbdLoop rest (some s) (segKey s :: seen) = dedupeSpecGo (processed ++ [s]) rest := by
        have h := ih (processed ++ [s]) (segKey s :: seen) hinv2
        rwa [hlast] at h
      simp [rbdLoop, dedupeSpecGo, hc, hc2, hgo, hnotseen, hnotmem]
/-- Claim C5: removeBoundaryDuplicates coincides with the declarative
single-pass rule (keep on first fingerprint occurrence; on a repeated
fingerprint drop exactly when the immediately preceding original entry has
the same timestamp and case-insensitively identical full text); adjacent
case-insensitive repeats collapse, same-timestamp different-text entries
are both kept. -/
theorem removeBoundaryDuplicates_spec :
    (∀ transcript, removeBoundaryDuplicates transcript = dedupeSpec transcript) ∧
    removeBoundaryDuplicates [segA, segAdup] = [segA] ∧
    removeBoundaryDuplicates [segA, segB] = [segA, segB] := by
  refine ⟨fun transcript => ?_, by decide, by decide⟩
  exact rbdLoop_eq_spec transcript [] [] (fun k => by simp)

theorem boundaryMatch_iff (p s : TranscriptSegment) :
    boundaryMatch p s = true ↔ p.timestamp = s.timestamp ∧ lowerStr p.text = lowerStr s.text := by
  simp [boundaryMatch]

theorem boundaryMatch_refl (a : TranscriptSegment) : boundaryMatch a a = true := by
  simp [boundaryMatch]

theorem boundaryMatch_symm {a b : TranscriptSegment} (h : boundaryMatch a b = true) :
    boundaryMatch b a = true := by
  rw [boundaryMatch_iff] at *
  exact ⟨h.1.symm, h.2.symm⟩

theorem boundaryMatch_trans {a b c : TranscriptSegment} (h1 : boundaryMatch a b = true)
    (h2 : boundaryMatch b c = true) : boundaryMatch a c = true := by
  rw [boundaryMatch_iff] at *
  exact ⟨h1.1.trans h2.1, h1.2.trans h2.2⟩

theorem segKey_eq_of_match {p a : TranscriptSegment} (h : boundaryMatch p a = true) :
    segKey a = segKey p := by
  rw [boundaryMatch_iff] at h
  have hts : p.timestamp = a.timestamp := h.1
  have htext : p.text.data.map Char.toLower = a.text.data.map Char.toLower :=
    congrArg String.data h.2
  show a.timestamp ++ "-" ++ String.mk ((a.text.data.take 20).map Char.toLower) =
    p.timestamp ++ "-" ++ String.mk ((p.text.data.take 20).map Char.toLower)
  rw [hts, List.map_take, List.map_take, htext]

theorem rbdLoop_cons_some (s : TranscriptSegment) (rest : List TranscriptSegment)
    (p : TranscriptSegment) (seen : List String) :
    rbdLoop (s :: rest) (some p) seen =
      if seen.contains (segKey s) then
        (if boundaryMatch p s then rbdLoop rest (some s) seen
         else s :: rbdLoop rest (some s) seen)
      else s :: rbdLoop rest (some s) (segKey s :: seen) := rfl

theorem rbdLoop_cons_none (s : TranscriptSegment) (rest : List TranscriptSegment)
    (seen : List String) :
    rbdLoop (s :: rest) none seen =
      if seen.contains (segKey s) then rbdLoop rest (some s) seen
      else s :: rbdLoop rest (some s) (segKey s :: seen) := rfl

theorem rbdLoop_sublist (rest : List TranscriptSegment) :
    ∀ (prev : Option TranscriptSegment) (seen : List String),
      (rbdLoop rest prev seen).Sublist rest := by
  induction rest with
  | nil => intro prev seen; simp [rbdLoop]
  | cons s rest ih =>
    intro prev seen
    cases prev with
    | none =>
      rw [rbdLoop_cons_none]
      by_cases hc : seen.contains (segKey s) = true
      · rw [if_pos hc]; exact (ih _ _).cons s
      · rw [if_neg hc]; exact (ih _ _).cons₂ s
    | some p =>
      rw [rbdLoop_cons_some]
      by_cases hc : seen.contains (segKey s) = true
      · rw [if_pos hc]
        by_cases hm : boundaryMatch p s = true
        · rw [if_pos hm]; exact (ih _ _).cons s
        · rw [if_neg hm]; exact (ih _ _).cons₂ s
      · rw [if_neg hc]; exact (ih _ _).cons₂ s

theorem rbd_head (l : List TranscriptSegment) :
    (removeBoundaryDuplicates l).head? = l.head? := by
  cases l with
  | nil => rfl
  | cons s rest => rfl

theorem rbdLoop_chain (rest : List TranscriptSegment) :
    ∀ (p c : TranscriptSegment) (seen : List String),
      boundaryMatch c p = true → seen.contains (segKey p) = true →
      (∀ h, (rbdLoop rest (some p) seen).head? = some h → boundaryMatch c h = false) ∧
      List.Chain' (fun a b => boundaryMatch a b = false) (rbdLoop rest (some p) seen) := by
  induction rest with
  | nil =>
    intro p c seen _ _
    exact ⟨fun h hh => by simp [rbdLoop] at hh, by simp [rbdLoop]⟩
  | cons a rest ih =>
    intro p c seen hcp hkey
    rw [rbdLoop_cons_some]
    by_cases hc : seen.contains (segKey a) = true
    · rw [if_pos hc]
      by_cases hm : boundaryMatch p a = true
      · rw [if_pos hm]
        exact ih a c seen (boundaryMatch_trans hcp hm) hc
      · rw [if_neg hm]
        have hca : boundaryMatch c a = false := by
          cases hbm : boundaryMatch c a with
          | false => rfl
          | true => exact absurd (boundaryMatch_trans (boundaryMatch_symm hcp) hbm) hm
        refine ⟨?_, ?_⟩
        · intro h hh
          have ha : a = h := by simpa using hh
          rw [← ha]; exact hca
        · have hrec := ih a a seen (boundaryMatch_refl a) hc
          exact List.chain'_cons'.mpr ⟨fun y hy => hrec.1 y (Option.mem_def.mp hy), hrec.2⟩
    · rw [if_neg hc]
      have hca : boundaryMatch c a = false := by
        cases hbm : boundaryMatch c a with
        | false => rfl
        | true =>
          exfalso
          apply hc
          rw [segKey_eq_of_match hbm, ← segKey_eq_of_match hcp]
          exact hkey
      refine ⟨?_, ?_⟩
      · intro h hh
        have ha : a = h := by simpa using hh
        rw [← ha]; exact hca
      · have hrec := ih a a (segKey a :: seen) (boundaryMatch_refl a)
          (by simp [List.contains_cons])
        exact List.chain'_cons'.mpr ⟨fun y hy => hrec.1 y (Option.mem_def.mp hy), hrec.2⟩

theorem rbd_chain (l : List TranscriptSegment) :
    List.Chain' (fun a b => boundaryMatch a b = false) (removeBoundaryDuplicates l) := by
  cases l with
  | nil => simp [removeBoundaryDuplicates, rbdLoop]
  | cons a rest =>
    have hrec := rbdLoop_chain rest a a [segKey a] (boundaryMatch_refl a)
      (by simp [List.contains_cons])
    have h1 : removeBoundaryDuplicates (a :: rest) = a :: rbdLoop rest (some a) [segKey a] := rfl
    rw [h1]
    exact List.chain'_cons'.mpr ⟨fun y hy => hrec.1 y (Option.mem_def.mp hy), hrec.2⟩

theorem rbdLoop_noop (rest : List TranscriptSegment) :
    ∀ (p : TranscriptSegment) (seen : List String),
      (∀ h, rest.head? = some h → boundaryMatch p h = false) →
      List.Chain' (fun a b => boundaryMatch a b = false) rest →
      rbdLoop rest (some p) seen = rest := by
  induction rest with
  | nil => intro p seen _ _; rfl
  | cons a rest ih =>
    intro p seen hhead hchain
    have hpa : boundaryMatch p a = false := hhead a rfl
    have hch := List.chain'_cons'.mp hchain
    rw [rbdLoop_cons_some]
    by_cases hc : seen.contains (segKey a) = true
    · rw [if_pos hc, if_neg (by simp [hpa])]
      congr 1
      exact ih a seen (fun h hh => hch.1 h (Option.mem_def.mpr hh)) hch.2
    · rw [if_neg hc]
      congr 1
      exact ih a (segKey a :: seen) (fun h hh => hch.1 h (Option.mem_def.mpr hh)) hch.2

theorem rbd_idem (l : List TranscriptSegment) :
    removeBoundaryDuplicates (removeBoundaryDuplicates l) = removeBoundaryDuplicates l := by
  have hchain := rbd_chain l
  cases ho : removeBoundaryDuplicates l with
  | nil => rfl
  | cons a rest =>
    rw [ho] at hchain
    have hch := List.chain'_cons'.mp hchain
    show removeBoundaryDuplicates (a :: rest) = a :: rest
    have h1 : removeBoundaryDuplicates (a :: rest) = a :: rbdLoop rest (some a) [segKey a] := rfl
    rw [h1]
    congr 1
    exact rbdLoop_noop rest a [segKey a] (fun h hh => hch.1 h (Option.mem_def.mpr hh)) hch.2

/-- Claim C10: the deduplicated transcript is a subsequence of the input
(entries unchanged, order preserved), the first entry is always kept, and
the pass is idempotent. -/
theorem removeBoundaryDuplicates_props (l : List TranscriptSegment) :
    (removeBoundaryDuplicates l).Sublist l ∧
    (removeBoundaryDuplicates l).head? = l.head? ∧
    removeBoundaryDuplicates (removeBoundaryDuplicates l) = removeBoundaryDuplicates l :=
  ⟨rbdLoop_sublist l none [], rbd_head l, rbd_idem l⟩

theorem natCeilDiv_eq_ceil (D cs : Nat) (h : 0 < cs) :
    (D + cs - 1) / cs = ⌈(D : ℚ) / (cs : ℚ)⌉₊ := by
  have hcsQ : (0 : ℚ) < (cs : ℚ) := by exact_mod_cast h
  rcases Nat.eq_zero_or_pos D with hD | hD
  · subst hD
    rw [show (0 : Nat) + cs - 1 = cs - 1 by omega, Nat.div_eq_of_lt (by omega)]
    simp
  · have hn : (D + cs - 1) / cs = (D - 1) / cs + 1 := by
      rw [show D + cs - 1 = (D - 1) + cs by omega, Nat.add_div_right _ h]
    have hDle : D ≤ ((D - 1) / cs + 1) * cs := by
      have hdm := Nat.div_add_mod (D - 1) cs
      have hml := (D - 1).mod_lt h
      have expand : ((D - 1) / cs + 1) * cs = cs * ((D - 1) / cs) + cs := by ring
      omega
    have hlt : ((D - 1) / cs) * cs < D := by
      have h1 : ((D - 1) / cs) * cs ≤ D - 1 := Nat.div_mul_le_self _ _
      omega
    rw [hn]
    symm
    rw [Nat.ceil_eq_iff (Nat.succ_ne_zero ((D - 1) / cs))]
    constructor
    · show (((D - 1) / cs + 1 - 1 : Nat) : ℚ) < (D : ℚ) / (cs : ℚ)
      rw [Nat.add_sub_cancel, lt_div_iff hcsQ]
      exact_mod_cast hlt
    · rw [div_le_iff hcsQ]
      exact_mod_cast hDle

/-- Claim C2: for L > 0 the planner returns ceil(D / (L*60)) segments with
contiguous 0-based indices; segment i has start i*L*60, end
min((i+1)*L*60, D) and duration end - start; consecutive segments are
contiguous (each end equals the next start), every segment is non-empty
(start < end, so the list is strictly increasing and non-overlapping), the
first start is 0 and the last end is exactly D. -/
theorem splitVideoIntoChunks_spec (D L : Nat) (hL : 0 < L) :
    (splitVideoIntoChunks D L).length = ⌈(D : ℚ) / ((L : ℚ) * 60)⌉₊ ∧
    (∀ i (h : i < (splitVideoIntoChunks D L).length),
      ((splitVideoIntoChunks D L).get ⟨i, h⟩).index = i ∧
      ((splitVideoIntoChunks D L).get ⟨i, h⟩).startTime = i * (L * 60) ∧
      ((splitVideoIntoChunks D L).get ⟨i, h⟩).endTime = min ((i + 1) * (L * 60)) D ∧
      ((splitVideoIntoChunks D L).get ⟨i, h⟩).duration =
        ((splitVideoIntoChunks D L).get ⟨i, h⟩).endTime -
          ((splitVideoIntoChunks D L).get ⟨i, h⟩).startTime ∧
      ((splitVideoIntoChunks D L).get ⟨i, h⟩).startTime <
        ((splitVideoIntoChunks D L).get ⟨i, h⟩).endTime) ∧
    (∀ i (h : i + 1 < (splitVideoIntoChunks D L).length),
      ((splitVideoIntoChunks D L).get ⟨i, Nat.lt_of_succ_lt h⟩).endTime =
        ((splitVideoIntoChunks D L).get ⟨i + 1, h⟩).startTime) ∧
    (∀ h : 0 < (splitVideoIntoChunks D L).length,
      ((splitVideoIntoChunks D L).get ⟨0, h⟩).startTime = 0) ∧
    (∀ i (h : i < (splitVideoIntoChunks D L).length),
      i = (splitVideoIntoChunks D L).length - 1 →
        ((splitVideoIntoChunks D L).get ⟨i, h⟩).endTime = D) := by
  have hcs : 0 < L * 60 := by omega
  have hcastmul : ((L * 60 : Nat) : ℚ) = (L : ℚ) * 60 := by push_cast; ring
  have hlen0 : (splitVideoIntoChunks D L).length = (D + L * 60 - 1) / (L * 60) := by
    simp [splitVideoIntoChunks]
  have hceil : (D + L * 60 - 1) / (L * 60) = ⌈(D : ℚ) / ((L : ℚ) * 60)⌉₊ := by
    rw [natCeilDiv_eq_ceil D (L * 60) hcs, hcastmul]
  have hqcs : (0 : ℚ) < ((L * 60 : Nat) : ℚ) := by exact_mod_cast hcs
  have hA : D ≤ ((D + L * 60 - 1) / (L * 60)) * (L * 60) := by
    rw [hceil, ← hcastmul] at *
    have h1 := Nat.le_ceil ((D : ℚ) / ((L * 60 : Nat) : ℚ))
    rw [div_le_iff hqcs] at h1
    exact_mod_cast h1
  have hB : ∀ i : Nat, i < (D + L * 60 - 1) / (L * 60) → i * (L * 60) < D := by
    intro i hi
    rw [hceil, ← hcastmul] at hi
    have h1 : (i : ℚ) < (D : ℚ) / ((L * 60 : Nat) : ℚ) := Nat.lt_ceil.mp hi
    rw [lt_div_iff hqcs] at h1
    exact_mod_cast h1
  have hget : ∀ i (h : i < (splitVideoIntoChunks D L).length),
      (splitVideoIntoChunks D L).get ⟨i, h⟩ =
        { startTime := i * (L * 60),
          endTime := min ((i + 1) * (L * 60)) D,
          index := i,
          duration := min ((i + 1) * (L * 60)) D - i * (L * 60) } := by
    intro i h
    simp [splitVideoIntoChunks]
  refine ⟨by rw [hlen0, hceil], ?_, ?_, ?_, ?_⟩
  · intro i h
    have hiB : i * (L * 60) < D := hB i (by rw [← hlen0]; exact h)
    rw [hget i h]
    refine ⟨rfl, rfl, rfl, rfl, ?_⟩
    show i * (L * 60) < min ((i + 1) * (L * 60)) D
    refine lt_min ?_ hiB
    exact (Nat.mul_lt_mul_right hcs).mpr (Nat.lt_succ_self i)
  · intro i h
    have hiB : (i + 1) * (L * 60) < D := hB (i + 1) (by rw [← hlen0]; exact h)
    rw [hget i (Nat.lt_of_succ_lt h), hget (i + 1) h]
    show min ((i + 1) * (L * 60)) D = (i + 1) * (L * 60)
    exact min_eq_left (Nat.le_of_lt hiB)
  · intro h
    rw [hget 0 h]
    show 0 * (L * 60) = 0
    exact Nat.zero_mul _
  · intro i h hi
    rw [hget i h]
    show min ((i + 1) * (L * 60)) D = D
    apply min_eq_right
    have hn : i + 1 = (D + L * 60 - 1) / (L * 60) := by
      rw [hlen0] at h hi
      omega
    rw [hn]
    exact hA

/-- Witness for splitVideoIntoChunks_spec: a 750 second video split into
2 minute segments yields 7 segments and the last one ends at 750. -/
theorem splitVideoIntoChunks_spec_witness :
    (splitVideoIntoChunks 750 2).length = ⌈(750 : ℚ) / ((2 : ℚ) * 60)⌉₊ ∧
    ((splitVideoIntoChunks 750 2).get ⟨6, by decide⟩).endTime = 750 :=
  ⟨(splitVideoIntoChunks_spec 750 2 (by decide)).1,
   (splitVideoIntoChunks_spec 750 2 (by decide)).2.2.2.2 6 (by decide) (by decide)⟩

/-- Counterexample for claim C9 as stated: there is no secondary threshold
smaller than maxSizeMB that describes the duration-unavailable fallback for
every pair of thresholds — at maxSizeMB = 40 the fallback still compares
against the fixed 50 MB constant (a 40 MB file is reported as not needing
chunking although it exceeds every threshold below 40 MB). -/
theorem shouldChunkVideo_secondary_cex :
    ¬ ∀ maxSizeMB maxDurationMinutes : Nat, ∃ T : ℚ, T < (maxSizeMB : ℚ) ∧
      ∀ sizeBytes : Nat,
        shouldChunkVideo sizeBytes none maxSizeMB maxDurationMinutes =
          decide ((sizeBytes : ℚ) / (1024 * 1024) > T) := by
  intro hall
  obtain ⟨T, hT, hfall⟩ := hall 40 60
  have h := hfall (40 * 1024 * 1024)
  have hL : shouldChunkVideo (40 * 1024 * 1024) none 40 60 = false := by decide
  rw [hL] at h
  have hQ : (((40 * 1024 * 1024 : Nat)) : ℚ) / (1024 * 1024) = 40 := by
    push_cast
    norm_num
  rw [hQ] at h
  have hTlt : (40 : ℚ) > T := by exact_mod_cast hT
  rw [decide_eq_true hTlt] at h
  exact Bool.noConfusion h

/-- Claim C9 (amended): shouldChunkVideo returns true when the exact size in
MB exceeds maxSizeMB (never consulting the duration); otherwise, with an
obtainable duration it returns whether the duration in minutes exceeds
maxDurationMinutes, and with an unobtainable duration it compares the size
in MB against the fixed 50 MB constant (which is smaller than the default
maxSizeMB of 100 but is not derived from the supplied maxSizeMB). -/
theorem shouldChunkVideo_spec (sizeBytes maxSizeMB maxDurationMinutes d : Nat) :
    ((sizeBytes : ℚ) / (1024 * 1024) > (maxSizeMB : ℚ) →
      ∀ durationSecs, shouldChunkVideo sizeBytes durationSecs maxSizeMB maxDurationMinutes = true) ∧
    (¬ ((sizeBytes : ℚ) / (1024 * 1024) > (maxSizeMB : ℚ)) →
      shouldChunkVideo sizeBytes (some d) maxSizeMB maxDurationMinutes =
        decide ((d : ℚ) / 60 > (maxDurationMinutes : ℚ))) ∧
    (¬ ((sizeBytes : ℚ) / (1024 * 1024) > (maxSizeMB : ℚ)) →
      shouldChunkVideo sizeBytes none maxSizeMB maxDurationMinutes =
        decide ((sizeBytes : ℚ) / (1024 * 1024) > 50)) := by
  have hsize : ((sizeBytes : ℚ) / (1024 * 1024) > (maxSizeMB : ℚ)) ↔
      sizeBytes > maxSizeMB * (1024 * 1024) := by
    rw [gt_iff_lt, lt_div_iff (by norm_num : (0 : ℚ) < 1024 * 1024)]
    constructor
    · intro hh; exact_mod_cast hh
    · intro hh; exact_mod_cast hh
  have hdur : ((d : ℚ) / 60 > (maxDurationMinutes : ℚ)) ↔ d > maxDurationMinutes * 60 := by
    rw [gt_iff_lt, lt_div_iff (by norm_num : (0 : ℚ) < 60)]
    constructor
    · intro hh; exact_mod_cast hh
    · intro hh; exact_mod_cast hh
  have hfall : ((sizeBytes : ℚ) / (1024 * 1024) > (50 : ℚ)) ↔
      sizeBytes > 50 * (1024 * 1024) := by
    rw [gt_iff_lt, lt_div_iff (by norm_num : (0 : ℚ) < 1024 * 1024)]
    constructor
    · intro hh; exact_mod_cast hh
    · intro hh; exact_mod_cast hh
  refine ⟨?_, ?_, ?_⟩
  · intro h durationSecs
    unfold shouldChunkVideo
    rw [if_pos (hsize.mp h)]
  · intro h
    unfold shouldChunkVideo
    rw [if_neg (fun hh => h (hsize.mpr hh))]
    show decide (d > maxDurationMinutes * 60) = decide ((d : ℚ) / 60 > (maxDurationMinutes : ℚ))
    exact decide_eq_decide.mpr hdur.symm
  · intro h
    unfold shouldChunkVideo
    rw [if_neg (fun hh => h (hsize.mpr hh))]
    show decide (sizeBytes > 50 * (1024 * 1024)) =
      decide ((sizeBytes : ℚ) / (1024 * 1024) > 50)
    exact decide_eq_decide.mpr hfall.symm

/-- Witness for shouldChunkVideo_spec at a 300 MB file (oversize branch) and
a 10 MB file with unobtainable duration (fallback branch). -/
theorem shouldChunkVideo_spec_witness :
    shouldChunkVideo (300 * 1024 * 1024) (some 100) 100 60 = true ∧
    shouldChunkVideo (10 * 1024 * 1024) none 100 60 =
      decide (((10 * 1024 * 1024 : Nat) : ℚ) / (1024 * 1024) > 50) :=
  ⟨(shouldChunkVideo_spec (300 * 1024 * 1024) 100 60 100).1 (by push_cast; norm_num) (some 100),
   (shouldChunkVideo_spec (10 * 1024 * 1024) 100 60 0).2.2 (by push_cast; norm_num)⟩

/-- Counterexample for claim C3 as stated: with the credential missing and a
video large enough to need chunking, processVideoWithChunking does NOT
surface an error — the per-chunk catch swallows the credential error and the
call completes with placeholder results for every segment. -/
theorem processVideoWithChunking_missing_key_cex :
    ∃ r, processVideoWithChunking ⟨200 * 1024 * 1024, some 1800⟩ sampleMeta none failEnv 15 =
        Except.ok r ∧
      r.metadata.summary = "Chunk 1 processing failed Chunk 2 processing failed" ∧
      r.metadata.language = "Unknown" ∧
      r.transcript = [] :=
  ⟨_, rfl, rfl, rfl, rfl⟩

/-- Claim C3 (amended): a missing or empty credential is surfaced
immediately as an error by processVideoWithGemini (whatever the remote call
would have returned), and by processVideoWithChunking whenever the video
does not require chunking; on the chunked path the per-segment error
handling converts the same configuration error into placeholder results
instead (see the counterexample). -/
theorem processVideo_config_error (apiKey : Option String)
    (callOutcome : Except String TrainingData) (file : MediaFile) (meta : UserMetadata)
    (env : InferenceEnv) (L : Nat) (hkey : apiKeyInvalid apiKey = true) :
    processVideoWithGemini apiKey callOutcome = Except.error geminiKeyError ∧
    (shouldChunkVideo file.sizeBytes file.durationSecs 100 60 = false →
      processVideoWithChunking file meta apiKey env L = Except.error geminiKeyError) := by
  constructor
  · unfold processVideoWithGemini
    rw [if_pos hkey]
  · intro hchunk
    simp [processVideoWithChunking, processVideoWithGemini, hchunk, hkey]

/-- Witness for processVideo_config_error: a 1 MB, 60 second video with no
API key fails fast on both entry points. -/
theorem processVideo_config_error_witness :
    processVideoWithGemini none (Except.error "service unavailable") =
      Except.error geminiKeyError ∧
    processVideoWithChunking ⟨1024 * 1024, some 60⟩ sampleMeta none failEnv 15 =
      Except.error geminiKeyError := by
  have h := processVideo_config_error none (Except.error "service unavailable")
    ⟨1024 * 1024, some 60⟩ sampleMeta failEnv 15 rfl
  exact ⟨h.1, h.2 (by decide)⟩

theorem runChunks_length (meta : UserMetadata) (apiKey : Option String) (env : InferenceEnv) :
    ∀ (chunks : List VideoChunk) (i : Nat),
      (runChunks meta apiKey env i chunks).length = chunks.length := by
  intro chunks
  induction chunks with
  | nil => intro i; rfl
  | cons c rest ih => intro i; simp [runChunks, ih]

theorem runChunks_get (meta : UserMetadata) (apiKey : Option String) (env : InferenceEnv) :
    ∀ (chunks : List VideoChunk) (i j : Nat),
      (runChunks meta apiKey env i chunks).get? j = (chunks.get? j).map (fun ch =>
        match processVideoWithGemini apiKey (env.perChunk (i + j)) with
        | Except.ok result => (result, ch.duration)
        | Except.error _ => (placeholderResult meta (i + j), ch.duration)) := by
  intro chunks
  induction chunks with
  | nil => intro i j; simp [runChunks]
  | cons c rest ih =>
    intro i j
    cases j with
    | zero => simp [runChunks]
    | succ j =>
      have h := ih (i + 1) j
      rw [show i + 1 + j = i + (j + 1) from by omega] at h
      simpa [runChunks] using h

/-- Claim C4: within the dispatch loop a failed segment never aborts the
run; the loop yields exactly one (result, duration) pair per segment in
order; on failure of segment i the pair is the synthesized placeholder
(caller title, speaker and category preserved; language Unknown; no tags;
summary Chunk i+1 processing failed; empty transcript) paired with the
segment's actual duration, and on success it is the adapter result paired
with the same duration, so duration bookkeeping for the later offsets is
unaffected by failures. -/
theorem runChunks_spec (meta : UserMetadata) (apiKey : Option String) (env : InferenceEnv)
    (chunks : List VideoChunk) :
    (runChunks meta apiKey env 0 chunks).length = chunks.length ∧
    ∀ i ch, chunks.get? i = some ch →
      ((∀ e, processVideoWithGemini apiKey (env.perChunk i) = Except.error e →
          (runChunks meta apiKey env 0 chunks).get? i =
            some ({ metadata :=
                      { title := meta.title, speakerName := meta.speakerName,
                        category := meta.category, language := "Unknown", tags := [],
                        summary := "Chunk " ++ toString (i + 1) ++ " processing failed" },
                    transcript := [] }, ch.duration)) ∧
       (∀ r, processVideoWithGemini apiKey (env.perChunk i) = Except.ok r →
          (runChunks meta apiKey env 0 chunks).get? i = some (r, ch.duration))) := by
  refine ⟨runChunks_length meta apiKey env chunks 0, ?_⟩
  intro i ch hch
  have hg := runChunks_get meta apiKey env chunks 0 i
  rw [hch] at hg
  simp only [Nat.zero_add, Option.map_some'] at hg
  constructor
  · intro e he
    rw [hg, he]
    rfl
  · intro r hr
    rw [hg, hr]

/-- Witness for runChunks_spec: over two 900 second segments with the second
remote call failing, the loop still emits the placeholder pair for index 1
with the correct duration. -/
theorem runChunks_spec_witness :
    (runChunks sampleMeta (some "key") mixedEnv 0
        [⟨0, 900, 0, 900⟩, ⟨900, 1800, 1, 900⟩]).get? 1 =
      some ({ metadata :=
                { title := sampleMeta.title, speakerName := sampleMeta.speakerName,
                  category := sampleMeta.category, language := "Unknown", tags := [],
                  summary := "Chunk " ++ toString (1 + 1) ++ " processing failed" },
              transcript := [] }, 900) := by
  have h := (runChunks_spec sampleMeta (some "key") mixedEnv
      [⟨0, 900, 0, 900⟩, ⟨900, 1800, 1, 900⟩]).2 1 ⟨900, 1800, 1, 900⟩ rfl
  exact h.1 "service unavailable" rfl
